import Mathlib

-- Verification development for the patch-hunk application engine of
-- posixutils-rs (`text/src/patch_utils/`).  The Rust sources are shallowly
-- embedded: machine strings become `String` / `List Char`, fallible or
-- panicking code returns `Option` (with `none` marking a panic / assertion
-- abort), and `Result<T, E>` becomes `Except E T`.

set_option maxRecDepth 10000

/-! Formats and file kinds (`patch_format.rs`, `patch_file_kind.rs`; the enum
variants are fixed by their uses in `hunks.rs` and `range.rs`). -/

inductive PatchFormat where
  | none
  | normal
  | unified
  | context
  | editScript
deriving DecidableEq, Repr

inductive FileKind where
  | Original
  | Modified
deriving DecidableEq, Repr

/-! Character-level helpers modelling the Rust `str` operations used by the
decoders (`filter`, `split`, `trim`, `usize::from_str_radix` / `parse`).
Strings are treated as their character lists (inputs in the claims are
ASCII, where Rust byte indices and char indices agree). -/

/-- Model of Rust `str::split(sep)` on a character list: splitting the empty
string yields `[[]]`, and adjacent separators yield empty fragments. -/
def splitChar (sep : Char) : List Char → List (List Char)
  | [] => [[]]
  | c :: rest =>
    let r := splitChar sep rest
    if c = sep then [] :: r
    else
      match r with
      | t :: ts => (c :: t) :: ts
      | [] => [[c]]

/-- Model of Rust `str::trim` (whitespace here is the ASCII whitespace that
`Char.isWhitespace` recognises; all inputs of interest are ASCII). -/
def trimLeftChars (l : List Char) : List Char := l.dropWhile Char.isWhitespace

def trimChars (l : List Char) : List Char :=
  trimLeftChars (trimLeftChars l.reverse).reverse

/-- Digit accumulation for `usize::from_str_radix(s, 10)`: every character
must be a decimal digit. -/
def digitsVal (l : List Char) : Option Nat :=
  l.foldlM (fun acc c => if c.isDigit then some (acc * 10 + (c.toNat - 48)) else none) 0

/-- Model of Rust `usize::from_str_radix(s, 10)` (and `str::parse::<usize>()`):
an optional leading `+` sign followed by at least one decimal digit. -/
def fromStrRadix10 (l : List Char) : Option Nat :=
  match l with
  | [] => none
  | c :: rest => if c = '+' then (if rest.isEmpty then none else digitsVal rest) else digitsVal l

/-! Range (`range.rs`). -/

structure Range where
  start : Nat
  /-- the `end` field of the Rust struct (`end` is reserved in Lean) -/
  stop : Nat
  kind : PatchFormat
deriving DecidableEq, Repr

/-- `Range::new`: asserts `start <= end` for every format except Unified;
`none` models the assertion failure (process abort). -/
def Range.new (start stop : Nat) (kind : PatchFormat) : Option Range :=
  if kind = PatchFormat.unified then some ⟨start, stop, kind⟩
  else if start ≤ stop then some ⟨start, stop, kind⟩
  else none

/-- `Range::end()`: format-dispatched; panics (`none`) on the `None` format,
returns `start + end` for Unified and the stored `end` otherwise. -/
def Range.endV (r : Range) : Option Nat :=
  match r.kind with
  | PatchFormat.none => none
  | PatchFormat.normal => some r.stop
  | PatchFormat.unified => some (r.start + r.stop)
  | PatchFormat.context => some r.stop
  | PatchFormat.editScript => some r.stop

inductive RangeError where
  | InvalidRange
  | InvalidRangeWithError (data : String)
deriving DecidableEq, Repr

/-- `EditScriptHunkKind` (`edit_script_range_data.rs`). -/
inductive EditScriptHunkKind where
  | Insert
  | Delete
  | Change
deriving DecidableEq, Repr

/-- the `+`/`-` filter at the top of `Range::try_from_unified` -/
def stripPM (l : List Char) : List Char :=
  l.filter (fun ch => ch ≠ '+' && ch ≠ '-')

/-- `Range::try_from_unified`: strip `+`/`-` everywhere, split on `,`, parse
each token; one number `n` yields `Range::new(n, 0, Unified)`, two numbers
yield `Range::new(n1, n2, Unified)`, anything else is an `InvalidRange`
error.  The outer `Option` records panics/aborts (none occur on this path,
as proved below). -/
def Range.try_from_unified (s : String) : Option (Except RangeError Range) :=
  let numbers := (splitChar ',' (stripPM s.data)).mapM fromStrRadix10
  match numbers with
  | Option.none => some (Except.error RangeError.InvalidRange)
  | some ns =>
    match ns with
    | [n] => (Range.new n 0 PatchFormat.unified).map Except.ok
    | [n1, n2] => (Range.new n1 n2 PatchFormat.unified).map Except.ok
    | _ => some (Except.error RangeError.InvalidRange)

/-- Token extraction of `Range::try_from_context`: the line must have exactly
three space-separated tokens, the middle one splits on `,` into one or two
fragments, each of which must parse as a number; `none` is the typed
`InvalidRange` outcome. -/
def contextNumbers (s : String) : Option (List Nat) :=
  match splitChar ' ' s.data with
  | [_t0, t1, _t2] =>
    let rangeNumbers := splitChar ',' t1
    if rangeNumbers.length = 1 ∨ rangeNumbers.length = 2 then
      rangeNumbers.mapM fromStrRadix10
    else Option.none
  | _ => Option.none

/-- `Range::try_from_context`: one parsed number `n` yields
`Range::new(n, n, Context)`, two yield `Range::new(n1, n2, Context)` (whose
assertion aborts on a descending pair, modelled by the outer `none`). -/
def Range.try_from_context (s : String) : Option (Except RangeError Range) :=
  match contextNumbers s with
  | Option.none => some (Except.error RangeError.InvalidRange)
  | some ns =>
    match ns with
    | [n] => (Range.new n n PatchFormat.context).map Except.ok
    | [n1, n2] => (Range.new n1 n2 PatchFormat.context).map Except.ok
    | _ => some (Except.error RangeError.InvalidRange)

/-- `Range::edit_script_range_kind`: the last character of the trimmed line
selects the kind; any other character, or an empty trimmed line, panics
(`none`). -/
def Range.edit_script_range_kind (s : String) : Option EditScriptHunkKind :=
  match (trimChars s.data).getLast? with
  | some c =>
    if c = 'a' then some EditScriptHunkKind.Insert
    else if c = 'c' then some EditScriptHunkKind.Change
    else if c = 'd' then some EditScriptHunkKind.Delete
    else Option.none
  | Option.none => Option.none

/-- `Range::try_from_edit_script`: slices `line.trim()[0 .. line.len()-1]`
(panicking when the untrimmed length is zero — `wrapping_sub` produces
`usize::MAX` — or exceeds the trimmed length by more than one), splits on
`,`, and parses one or two numbers; `Range::new(_, _, EditScript)` aborts on
a descending pair. -/
def Range.try_from_edit_script (s : String) : Option (Except RangeError Range) :=
  let n := s.data.length
  if n = 0 then Option.none
  else
    let trimmed := trimChars s.data
    if trimmed.length < n - 1 then Option.none
    else
      let commaSeparated := trimmed.take (n - 1)
      match splitChar ',' commaSeparated with
      | [t] =>
        match fromStrRadix10 t with
        | some a => (Range.new a a PatchFormat.editScript).map Except.ok
        | Option.none => some (Except.error (RangeError.InvalidRangeWithError "invalid digit found in string"))
      | [t1, t2] =>
        match fromStrRadix10 t1, fromStrRadix10 t2 with
        | some a, some b => (Range.new a b PatchFormat.editScript).map Except.ok
        | _, _ => some (Except.error (RangeError.InvalidRangeWithError "invalid digit found in string"))
      | _ => some (Except.error RangeError.InvalidRange)

/-! Patch lines and per-format hunk data.  `patch_line.rs`, `hunk.rs`,
`normal_range_data.rs`, `context_hunk_data.rs` and `patch_file.rs` are not
part of the sources at hand; their shapes are modelled from the spec
(sections 3 and 4.2) and from how `hunks.rs` consumes them. -/

/-- `NormalRangeKind` (`normal_range_data.rs`, variants fixed by the matches
in `Hunks::apply_normal`). -/
inductive NormalRangeKind where
  | Insert
  | Change
  | Delete
deriving DecidableEq, Repr

/-- Modelled from the spec: the payload of a Normal range-header line, two
ranges plus the three-way kind (spec section 3, "RangeHeader(Range,Range,
Kind)"), with the accessors `range_left` / `range_right` / `kind` used by
`hunks.rs`. -/
structure NormalRangeData where
  range_left : Range
  range_right : Range
  kind : NormalRangeKind
deriving DecidableEq, Repr

/-- `EditScriptRangeData` (`edit_script_range_data.rs`): raw header text, its
range and the kind decoded from the trailing letter. -/
structure EditScriptRangeData where
  line : String
  range : Range
  kind : EditScriptHunkKind
deriving DecidableEq, Repr

/-- Modelled from the spec: `PatchLine`, a closed tagged variant carrying the
line's role and its original text (spec section 3).  The variant names are
those matched in `hunks.rs`; every textual payload is the original source
text, re-emitted byte-for-byte by the engine. -/
inductive PatchLine where
  | NormalRange (data : NormalRangeData)
  | NormalChangeSeparator (text : String)
  | NormalLineInsert (text : String)
  | NormalLineDelete (text : String)
  | UnifiedHunkHeader (text : String)
  | UnifiedDeleted (text : String)
  | UnifiedUnchanged (text : String)
  | UnifiedInserted (text : String)
  | ContextHunkRange (text : String)
  | ContextHunkSeparator (text : String)
  | ContextInserted (text : String) (is_change : Bool)
  | ContextDeleted (text : String) (is_change : Bool)
  | ContextUnchanged (text : String)
  | EditScriptRange (data : EditScriptRangeData)
  | EditScriptInsert (text : String)
  | EditScriptChange (text : String)
  | NoNewLine (kind : PatchFormat) (text : String)
deriving DecidableEq, Repr

/-- Modelled from the spec: `PatchLine::original_line` returns the stored
original text (spec section 3: "payload = original source text (for faithful
byte-for-byte re-emission)"). -/
def PatchLine.original_line : PatchLine → String
  | PatchLine.NormalRange _ => "" -- never re-emitted by the engine
  | PatchLine.NormalChangeSeparator t => t
  | PatchLine.NormalLineInsert t => t
  | PatchLine.NormalLineDelete t => t
  | PatchLine.UnifiedHunkHeader t => t
  | PatchLine.UnifiedDeleted t => t
  | PatchLine.UnifiedUnchanged t => t
  | PatchLine.UnifiedInserted t => t
  | PatchLine.ContextHunkRange t => t
  | PatchLine.ContextHunkSeparator t => t
  | PatchLine.ContextInserted t _ => t
  | PatchLine.ContextDeleted t _ => t
  | PatchLine.ContextUnchanged t => t
  | PatchLine.EditScriptRange d => d.line
  | PatchLine.EditScriptInsert t => t
  | PatchLine.EditScriptChange t => t
  | PatchLine.NoNewLine _ t => t

/-- Modelled from the spec: the kind tag of a `PatchLine` (spec section 3
groups the variants by format; the shared `NoNewline` sentinel carries its
own tag). -/
def PatchLine.kindOf : PatchLine → PatchFormat
  | PatchLine.NormalRange _ => PatchFormat.normal
  | PatchLine.NormalChangeSeparator _ => PatchFormat.normal
  | PatchLine.NormalLineInsert _ => PatchFormat.normal
  | PatchLine.NormalLineDelete _ => PatchFormat.normal
  | PatchLine.UnifiedHunkHeader _ => PatchFormat.unified
  | PatchLine.UnifiedDeleted _ => PatchFormat.unified
  | PatchLine.UnifiedUnchanged _ => PatchFormat.unified
  | PatchLine.UnifiedInserted _ => PatchFormat.unified
  | PatchLine.ContextHunkRange _ => PatchFormat.context
  | PatchLine.ContextHunkSeparator _ => PatchFormat.context
  | PatchLine.ContextInserted _ _ => PatchFormat.context
  | PatchLine.ContextDeleted _ _ => PatchFormat.context
  | PatchLine.ContextUnchanged _ => PatchFormat.context
  | PatchLine.EditScriptRange _ => PatchFormat.editScript
  | PatchLine.EditScriptInsert _ => PatchFormat.editScript
  | PatchLine.EditScriptChange _ => PatchFormat.editScript
  | PatchLine.NoNewLine k _ => k

/-- Modelled from the spec: Normal hunk data — `range_left`/`range_right`
plus the ordered patch lines, with exactly the accessors `hunks.rs` uses. -/
structure NormalHunkData where
  range_left : Range
  range_right : Range
  lines : List PatchLine
deriving DecidableEq, Repr

/-- `UnifiedHunkData` (`unified_hunk_data.rs`). -/
structure UnifiedHunkData where
  f1_range : Range
  f2_range : Range
  lines : List PatchLine
deriving DecidableEq, Repr

/-- `UnifiedHunkData::add_patch_line`: asserts that the line's kind is
Unified (a real check, unlike the vacuous one in `Hunks::add_patch_line`);
`none` models the assertion failure. -/
def UnifiedHunkData.add_patch_line (d : UnifiedHunkData) (patch_line : PatchLine) :
    Option UnifiedHunkData :=
  if patch_line.kindOf = PatchFormat.unified then
    some { d with lines := d.lines ++ [patch_line] }
  else Option.none

/-- Modelled from the spec: Context hunk data — optional `f1`/`f2` ranges,
the "original" and "modified" sub-lists, and the placeholder check
`is_original_empty(ORIGINAL_SKIP)` resolved once per hunk as an explicit
boolean flag (spec section 9 prescribes exactly this representation). -/
structure ContextHunkData where
  f1_range : Option Range
  f2_range : Option Range
  original_lines : List PatchLine
  modified_lines : List PatchLine
  original_is_empty : Bool
deriving DecidableEq, Repr

/-- Modelled from the spec: `ContextHunkData::change_by_index`, "locating the
Nth 'changed' line" (spec section 3) — the Nth modified-side line that is a
change; `none` models the out-of-bounds panic. -/
def ContextHunkData.change_by_index (d : ContextHunkData) (i : Nat) : Option PatchLine :=
  (d.modified_lines.filter fun pl =>
    match pl with
    | PatchLine.ContextInserted _ is_change => is_change
    | _ => false).get? i

/-- Modelled from the spec: EditScript hunk data — its range, the kind
decoded from the header's trailing letter, and the patch lines. -/
structure EditScriptHunkData where
  range : Range
  kind : EditScriptHunkKind
  lines : List PatchLine
deriving DecidableEq, Repr

/-- Modelled from the spec: `Hunk`, the sum over the four per-format data
variants (spec section 3). -/
inductive Hunk where
  | normal (data : NormalHunkData)
  | unified (data : UnifiedHunkData)
  | context (data : ContextHunkData)
  | editScript (data : EditScriptHunkData)
deriving DecidableEq, Repr

/-- Modelled from the spec: `Hunk::kind`, the format tag of the variant. -/
def Hunk.kind : Hunk → PatchFormat
  | Hunk.normal _ => PatchFormat.normal
  | Hunk.unified _ => PatchFormat.unified
  | Hunk.context _ => PatchFormat.context
  | Hunk.editScript _ => PatchFormat.editScript

/-- `Hunk::normal_hunk_data` — panics (`none`) on any other variant. -/
def Hunk.normal_hunk_data : Hunk → Option NormalHunkData
  | Hunk.normal d => some d
  | _ => Option.none

def Hunk.unified_hunk_data : Hunk → Option UnifiedHunkData
  | Hunk.unified d => some d
  | _ => Option.none

def Hunk.context_hunk_data : Hunk → Option ContextHunkData
  | Hunk.context d => some d
  | _ => Option.none

def Hunk.edit_script_hunk_data : Hunk → Option EditScriptHunkData
  | Hunk.editScript d => some d
  | _ => Option.none

/-- Modelled from the spec: `PatchFile` — ordered line list (without the
line terminators), trailing-newline flag and role tag (spec section 3);
1-based access `lines()[n-1]` throughout. -/
structure PatchFile where
  lines : List String
  ends_with_newline : Bool
  kind : FileKind
deriving DecidableEq, Repr

/-- 1-based line lookup `file.lines()[n-1]`; `none` models the
index-out-of-bounds panic. -/
def PatchFile.getLine (file : PatchFile) (n : Nat) : Option String :=
  file.lines.get? (n - 1)

/-! The application engine (`hunks.rs`).  Each algorithm is a fold over the
sorted hunks carrying `(output, cursor, no-newline counter)`; writing a line
appends `text ++ "\n"` (Rust `writeln!`), and `none` models any panic
(`unwrap`/`expect`/indexing/invalid patch line). -/

/-- Stable insertion of `x` after all elements with a key `<= key x`: the
building block of a stable sort-by-key (Rust `sort_by_key` is stable). -/
def insertByKey {α : Type} (key : α → Nat) (x : α) : List α → List α
  | [] => [x]
  | y :: ys => if key y ≤ key x then y :: insertByKey key x ys else x :: y :: ys

/-- Stable sort by a numeric key, modelling `Vec::sort_by_key`. -/
def sortByKey {α : Type} (key : α → Nat) (l : List α) : List α :=
  l.foldl (fun acc x => insertByKey key x acc) []

/-- Copy-through of source lines `a, a+1, ..., b-1` (1-based), each written
with a trailing newline; `none` models an out-of-bounds panic. -/
def copyLines (file : PatchFile) (a b : Nat) : Option String :=
  (List.range' a (b - a)).foldlM
    (fun acc j => (file.getLine j).map fun l => acc ++ l ++ "\n") ""

/-- Trailing-newline resolution, the `match no_new_line_count` block closing
every apply algorithm: count `0` always writes a newline; count `1` writes
one exactly when the loaded file's kind equals the algorithm's hard-coded
kind (`Original` everywhere except `apply_context_reverse`, which checks
`Modified`) and the file did not end with a newline; any other count writes
nothing. -/
def resolveTrailing (relevant : FileKind) (cnt : Nat) (file : PatchFile) : String :=
  match cnt with
  | 0 => "\n"
  | 1 =>
    if file.kind = relevant ∧ file.ends_with_newline = false then "\n" else ""
  | _ => ""

/-- Per-patch-line step of `Hunks::apply_normal` over the state
`(output, old_file_line, no_new_line_count)`; the write-only
`_new_file_line` bookkeeping counter of the source is omitted. -/
def normalForwardLine (file : PatchFile) (st : String × Nat × Nat) (pl : PatchLine) :
    Option (String × Nat × Nat) :=
  let (out, old, cnt) := st
  match pl with
  | PatchLine.NormalRange data => do
    let le ← data.range_left.endV
    let _re ← data.range_right.endV
    let leftDiff := le - data.range_left.start
    match data.kind with
    | NormalRangeKind.Insert =>
      if old ≤ data.range_left.start then do
        let l ← file.getLine old
        pure (out ++ l ++ "\n", old, cnt)
      else pure (out, old, cnt)
    | NormalRangeKind.Change => pure (out, old + leftDiff + 1, cnt)
    | NormalRangeKind.Delete => pure (out, old + leftDiff + 1, cnt)
  | PatchLine.NormalChangeSeparator _ => pure st
  | PatchLine.NormalLineInsert _ => pure (out ++ pl.original_line ++ "\n", old, cnt)
  | PatchLine.NormalLineDelete _ => pure st
  | PatchLine.NoNewLine _ _ => pure (out, old, cnt + 1)
  | _ => Option.none

/-- Per-hunk step of `Hunks::apply_normal`: copy-through up to
`range_left.start`, then process the hunk's patch lines. -/
def normalForwardHunk (file : PatchFile) (st : String × Nat × Nat) (d : NormalHunkData) :
    Option (String × Nat × Nat) := do
  let (out, old, cnt) := st
  let s ←
    if d.range_left.start > old then copyLines file old d.range_left.start
    else pure ""
  let old := if d.range_left.start > old then d.range_left.start else old
  d.lines.foldlM (normalForwardLine file) (out ++ s, old, cnt)

/-- `Hunks::apply_normal`: sort by `range_right.start`, walk the hunks, then
resolve the trailing newline against the `Original` kind.  No tail of the
source file is copied after the last hunk. -/
def applyNormal (file : PatchFile) (hunks : List Hunk) : Option String := do
  let ds ← hunks.mapM Hunk.normal_hunk_data
  let sorted := sortByKey (fun d => d.range_right.start) ds
  let st ← sorted.foldlM (normalForwardHunk file) ("", 1, 0)
  pure (st.1 ++ resolveTrailing FileKind.Original st.2.2 file)

/-- Per-patch-line step of `Hunks::apply_normal_reverse` over
`(output, new_file_line, no_new_line_count)`. -/
def normalReverseLine (file : PatchFile) (st : String × Nat × Nat) (pl : PatchLine) :
    Option (String × Nat × Nat) :=
  let (out, nw, cnt) := st
  match pl with
  | PatchLine.NormalRange data => do
    let re ← data.range_right.endV
    let rightDiff := re - data.range_right.start
    match data.kind with
    | NormalRangeKind.Insert => pure (out, nw + rightDiff + 1, cnt)
    | NormalRangeKind.Change => pure (out, nw + rightDiff + 1, cnt)
    | NormalRangeKind.Delete =>
      if nw ≤ data.range_right.start then do
        let l ← file.getLine nw
        pure (out ++ l ++ "\n", nw + 1, cnt)
      else pure (out, nw, cnt)
  | PatchLine.NormalChangeSeparator _ => pure st
  | PatchLine.NormalLineInsert _ => pure st
  | PatchLine.NormalLineDelete _ => pure (out ++ pl.original_line ++ "\n", nw, cnt)
  | PatchLine.NoNewLine _ _ => pure (out, nw, cnt + 1)
  | _ => Option.none

def normalReverseHunk (file : PatchFile) (st : String × Nat × Nat) (d : NormalHunkData) :
    Option (String × Nat × Nat) := do
  let (out, nw, cnt) := st
  let s ←
    if d.range_right.start > nw then copyLines file nw d.range_right.start
    else pure ""
  let nw := if d.range_right.start > nw then d.range_right.start else nw
  d.lines.foldlM (normalReverseLine file) (out ++ s, nw, cnt)

/-- `Hunks::apply_normal_reverse`: sort by `range_left.start`; the trailing
newline is still resolved against the `Original` kind. -/
def applyNormalReverse (file : PatchFile) (hunks : List Hunk) : Option String := do
  let ds ← hunks.mapM Hunk.normal_hunk_data
  let sorted := sortByKey (fun d => d.range_left.start) ds
  let st ← sorted.foldlM (normalReverseHunk file) ("", 1, 0)
  pure (st.1 ++ resolveTrailing FileKind.Original st.2.2 file)

/-- Per-patch-line step of `Hunks::apply_unified`. -/
def unifiedForwardLine (st : String × Nat × Nat) (pl : PatchLine) :
    Option (String × Nat × Nat) :=
  let (out, old, cnt) := st
  match pl with
  | PatchLine.UnifiedHunkHeader _ => pure st
  | PatchLine.UnifiedDeleted _ => pure (out, old + 1, cnt)
  | PatchLine.UnifiedUnchanged t => pure (out ++ t ++ "\n", old + 1, cnt)
  | PatchLine.UnifiedInserted t => pure (out ++ t ++ "\n", old, cnt)
  | PatchLine.NoNewLine _ _ => pure (out, old, cnt + 1)
  | _ => Option.none

def unifiedForwardHunk (file : PatchFile) (st : String × Nat × Nat) (d : UnifiedHunkData) :
    Option (String × Nat × Nat) := do
  let (out, old, cnt) := st
  let s ←
    if d.f1_range.start > old then copyLines file old d.f1_range.start
    else pure ""
  let old := if d.f1_range.start > old then d.f1_range.start else old
  d.lines.foldlM unifiedForwardLine (out ++ s, old, cnt)

/-- `Hunks::apply_unified`: sort by `f1_range.start`; no tail copy after the
last hunk; trailing newline resolved against `Original`. -/
def applyUnified (file : PatchFile) (hunks : List Hunk) : Option String := do
  let ds ← hunks.mapM Hunk.unified_hunk_data
  let sorted := sortByKey (fun d => d.f1_range.start) ds
  let st ← sorted.foldlM (unifiedForwardHunk file) ("", 1, 0)
  pure (st.1 ++ resolveTrailing FileKind.Original st.2.2 file)

/-- Per-patch-line step of `Hunks::apply_unified_reverse`. -/
def unifiedReverseLine (st : String × Nat × Nat) (pl : PatchLine) :
    Option (String × Nat × Nat) :=
  let (out, nw, cnt) := st
  match pl with
  | PatchLine.UnifiedHunkHeader _ => pure st
  | PatchLine.UnifiedDeleted t => pure (out ++ t ++ "\n", nw, cnt)
  | PatchLine.UnifiedUnchanged t => pure (out ++ t ++ "\n", nw + 1, cnt)
  | PatchLine.UnifiedInserted _ => pure (out, nw + 1, cnt)
  | PatchLine.NoNewLine _ _ => pure (out, nw, cnt + 1)
  | _ => Option.none

def unifiedReverseHunk (file : PatchFile) (st : String × Nat × Nat) (d : UnifiedHunkData) :
    Option (String × Nat × Nat) := do
  let (out, nw, cnt) := st
  let s ←
    if d.f2_range.start > nw then copyLines file nw d.f2_range.start
    else pure ""
  let nw := if d.f2_range.start > nw then d.f2_range.start else nw
  d.lines.foldlM unifiedReverseLine (out ++ s, nw, cnt)

/-- `Hunks::apply_unified_reverse`: sort by `f2_range.end()` (the `.end()`
call panics only on the `None` format, so the sort key is totalised with a
default); the source checks `FileKind::Original` in its trailing-newline
block even though the loaded file of a reverse application is `Modified`. -/
def applyUnifiedReverse (file : PatchFile) (hunks : List Hunk) : Option String := do
  let ds ← hunks.mapM Hunk.unified_hunk_data
  let sorted := sortByKey (fun d => (d.f2_range.endV).getD 0) ds
  let st ← sorted.foldlM (unifiedReverseHunk file) ("", 1, 0)
  pure (st.1 ++ resolveTrailing FileKind.Original st.2.2 file)

/-- Per-patch-line step of `Hunks::apply_context` over the state
`(output, original_file_line, change_index, no_newline_count)`; the
`change_index` counter is shared across hunks, as in the source. -/
def contextForwardLine (d : ContextHunkData) (st : String × Nat × Nat × Nat)
    (pl : PatchLine) : Option (String × Nat × Nat × Nat) :=
  let (out, orig, ci, cnt) := st
  match pl with
  | PatchLine.ContextInserted t is_change =>
    pure (out ++ t ++ "\n", if is_change then orig + 1 else orig, ci, cnt)
  | PatchLine.ContextDeleted _ is_change =>
    if is_change then do
      let cl ← d.change_by_index ci
      pure (out ++ cl.original_line ++ "\n", orig + 1, ci + 1, cnt)
    else pure (out, orig + 1, ci, cnt)
  | PatchLine.ContextUnchanged t => pure (out ++ t ++ "\n", orig + 1, ci, cnt)
  | PatchLine.ContextHunkRange _ => pure st
  | PatchLine.ContextHunkSeparator _ => pure st
  | PatchLine.NoNewLine _ _ => pure (out, orig, ci, cnt + 1)
  | _ => Option.none

def contextForwardHunk (file : PatchFile) (st : String × Nat × Nat × Nat)
    (d : ContextHunkData) : Option (String × Nat × Nat × Nat) := do
  let (out, orig, ci, cnt) := st
  let r1 ← d.f1_range
  let s ←
    if r1.start > orig then copyLines file orig r1.start
    else pure ""
  let orig := if r1.start > orig then r1.start else orig
  let patchLines := if d.original_is_empty then d.modified_lines else d.original_lines
  patchLines.foldlM (contextForwardLine d) (out ++ s, orig, ci, cnt)

/-- `Hunks::apply_context`: sort by `f1_range.start` (the `expect` on a
missing range panics; the sort key is totalised with a default, and the
per-hunk `expect` is modelled in the fold); trailing newline against
`Original`. -/
def applyContext (file : PatchFile) (hunks : List Hunk) : Option String := do
  let ds ← hunks.mapM Hunk.context_hunk_data
  let sorted := sortByKey (fun d => ((d.f1_range).map Range.start).getD 0) ds
  let st ← sorted.foldlM (contextForwardHunk file) ("", 1, 0, 0)
  pure (st.1 ++ resolveTrailing FileKind.Original st.2.2.2 file)

/-- Per-patch-line step of `Hunks::apply_context_reverse`. -/
def contextReverseLine (st : String × Nat × Nat) (pl : PatchLine) :
    Option (String × Nat × Nat) :=
  let (out, nw, cnt) := st
  match pl with
  | PatchLine.ContextInserted _ _ => pure (out, nw + 1, cnt)
  | PatchLine.ContextDeleted t is_change =>
    pure (out ++ t ++ "\n", if is_change then nw + 1 else nw, cnt)
  | PatchLine.ContextUnchanged t => pure (out ++ t ++ "\n", nw + 1, cnt)
  | PatchLine.ContextHunkRange _ => pure st
  | PatchLine.ContextHunkSeparator _ => pure st
  | PatchLine.NoNewLine _ _ => pure (out, nw, cnt + 1)
  | _ => Option.none

def contextReverseHunk (file : PatchFile) (st : String × Nat × Nat)
    (d : ContextHunkData) : Option (String × Nat × Nat) := do
  let (out, nw, cnt) := st
  let f2 ← d.f2_range
  let s ←
    if f2.start > nw then copyLines file nw f2.start
    else pure ""
  let nw := if f2.start > nw then f2.start else nw
  let patchLines := if d.original_is_empty then d.modified_lines else d.original_lines
  patchLines.foldlM contextReverseLine (out ++ s, nw, cnt)

/-- `Hunks::apply_context_reverse`: sorts by `f1_range.start` like the
forward direction, but its trailing-newline block is the single one that
checks `FileKind::Modified`. -/
def applyContextReverse (file : PatchFile) (hunks : List Hunk) : Option String := do
  let ds ← hunks.mapM Hunk.context_hunk_data
  let sorted := sortByKey (fun d => ((d.f1_range).map Range.start).getD 0) ds
  let st ← sorted.foldlM (contextReverseHunk file) ("", 1, 0)
  pure (st.1 ++ resolveTrailing FileKind.Modified st.2.2 file)

/-- Modelled from the spec: `PatchLine::line`, the raw-text accessor the
edit-script algorithm reads; it coincides with `original_line` here. -/
def PatchLine.line (pl : PatchLine) : String := pl.original_line

/-- Per-patch-line step of `Hunks::apply_edit_script`.  In the source the
`Delete` arm advances the cursor by the *patch line's own* range while the
`Change` arm advances it by the *enclosing hunk's* range (the outer `range`
binding); both are preserved. -/
def editScriptLine (hunkRange : Range) (st : String × Nat × Nat) (pl : PatchLine) :
    Option (String × Nat × Nat) :=
  let (out, old, cnt) := st
  match pl with
  | PatchLine.EditScriptRange data => do
    let st1 ←
      if data.kind = EditScriptHunkKind.Delete then do
        let re ← data.range.endV
        pure (out, old + (re - data.range.start) + 1, cnt)
      else pure (out, old, cnt)
    if data.kind = EditScriptHunkKind.Change then do
      let hre ← hunkRange.endV
      pure (st1.1, st1.2.1 + (hre - hunkRange.start) + 1, st1.2.2)
    else pure st1
  | PatchLine.EditScriptInsert t => pure (out ++ t ++ "\n", old, cnt)
  | PatchLine.EditScriptChange t => pure (out ++ t ++ "\n", old, cnt)
  | PatchLine.NoNewLine _ _ => pure (out, old, cnt + 1)
  | _ => Option.none

/-- Per-hunk step of `Hunks::apply_edit_script`: copy-through up to the
hunk's boundary (one line further for an Insert hunk), then process the
patch lines, skipping a terminating `"."` line. -/
def editScriptHunk (file : PatchFile) (st : String × Nat × Nat) (d : EditScriptHunkData) :
    Option (String × Nat × Nat) := do
  let (out, old, cnt) := st
  let boundary :=
    if d.kind = EditScriptHunkKind.Insert then d.range.start + 1 else d.range.start
  let s ←
    if old - 1 ≤ d.range.start then copyLines file old boundary
    else pure ""
  let old := if old - 1 ≤ d.range.start then old + (boundary - old) else old
  let effective :=
    match d.lines.getLast? with
    | some lastPl => if lastPl.line = "." then d.lines.dropLast else d.lines
    | Option.none => d.lines
  effective.foldlM (editScriptLine d.range) (out ++ s, old, cnt)

/-- `Hunks::apply_edit_script`: sort by `range.end()`; after the last hunk
the remaining source lines are flushed, but only under the guard
`file.lines().len() > old_file_line` (a strict inequality, although the
drain loop itself would run while `old_file_line <= len`); trailing newline
against `Original`. -/
def applyEditScript (file : PatchFile) (hunks : List Hunk) : Option String := do
  let ds ← hunks.mapM Hunk.edit_script_hunk_data
  let sorted := sortByKey (fun d => (d.range.endV).getD 0) ds
  let st ← sorted.foldlM (editScriptHunk file) ("", 1, 0)
  let (out, old, cnt) := st
  let out ←
    if file.lines.length > old then
      (copyLines file old (file.lines.length + 1)).map (out ++ ·)
    else pure out
  pure (out ++ resolveTrailing FileKind.Original cnt file)

/-! The `Hunks` collection and its insertion operations, plus the
preparation/dispatch model needed for the EditScript-plus-reverse path. -/

structure Hunks where
  kind : PatchFormat
  data : List Hunk
deriving DecidableEq, Repr

/-- `Hunks::new`: asserts the kind is not `PatchFormat::None`. -/
def Hunks.new (kind : PatchFormat) : Option Hunks :=
  if kind = PatchFormat.none then Option.none else some ⟨kind, []⟩

/-- The format guard of `Hunks::add_hunk` and `Hunks::add_patch_line`:
`matches!(self.kind, _hunk_kind)`.  The second argument (`hunk.kind()` in
the source) is evaluated into `_hunk_kind` — but inside `matches!` the name
occurs in *pattern* position, where it is a fresh irrefutable binding rather
than a comparison, so the guard holds for every pair of formats. -/
def addHunkGuard (selfKind : PatchFormat) (_hunkKind : PatchFormat) : Bool :=
  match selfKind with
  | _hunk_kind => true

/-- `Hunks::add_hunk`: assert the (vacuous) format guard, then push. -/
def Hunks.add_hunk (self : Hunks) (hunk : Hunk) : Option Hunks :=
  if addHunkGuard self.kind hunk.kind then
    some { self with data := self.data ++ [hunk] }
  else Option.none

/-- Modelled from the spec: `Hunk::add_patch_line` — the format-specific
append that "panics/fails if the line's format tag mismatches" (spec
section 4.2).  The Unified arm is the real `UnifiedHunkData::add_patch_line`
from the sources; a Context line is routed to a sub-list by the parser, a
detail no claim below inspects (this model appends it to the original
sub-list). -/
def Hunk.add_patch_line (h : Hunk) (pl : PatchLine) : Option Hunk :=
  match h with
  | Hunk.normal d =>
    if pl.kindOf = PatchFormat.normal then
      some (Hunk.normal { d with lines := d.lines ++ [pl] })
    else Option.none
  | Hunk.unified d => (d.add_patch_line pl).map Hunk.unified
  | Hunk.context d =>
    if pl.kindOf = PatchFormat.context then
      some (Hunk.context { d with original_lines := d.original_lines ++ [pl] })
    else Option.none
  | Hunk.editScript d =>
    if pl.kindOf = PatchFormat.editScript then
      some (Hunk.editScript { d with lines := d.lines ++ [pl] })
    else Option.none

/-- `Hunks::add_patch_line`: the same vacuous format guard, a real
`assert!(!self.has_no_hunks())` (abort on an empty collection), then append
to the last hunk. -/
def Hunks.add_patch_line (self : Hunks) (patch_line : PatchLine) : Option Hunks :=
  if addHunkGuard self.kind patch_line.kindOf then
    if self.data.isEmpty then Option.none
    else
      match self.data.getLast? with
      | some last =>
        (last.add_patch_line patch_line).map fun h =>
          { self with data := self.data.dropLast ++ [h] }
      | Option.none => some self
  else Option.none

/-- Modelled from the spec: loading a file into a `PatchFile` (an external
collaborator, spec section 1): the ordered line list without terminators and
the trailing-newline flag. -/
def loadLines (content : String) : List String :=
  if content.data.isEmpty then []
  else
    let parts := (splitChar '\n' content.data).map (fun cs => String.mk cs)
    if content.data.getLast? == some '\n' then parts.dropLast else parts

def PatchFile.load_file (content : String) (kind : FileKind) : PatchFile :=
  ⟨loadLines content, content.data.getLast? == some '\n', kind⟩

structure PatchOptions where
  reverse : Bool
  backup : Bool
  file : Option String
  output_file : Option String
deriving DecidableEq, Repr

/-- `PatchError` (`patch_error.rs`); the payloads of the wrapped `io::Error`
and `ParseIntError` are dropped. -/
inductive PatchError where
  | IOError
  | ParseIntError
  | Error (msg : String)
deriving DecidableEq, Repr

/-- A filesystem model for the preparation step: path-to-contents pairs. -/
abbrev Fs := List (String × String)

/-- Writing (or `File::create`-truncating) a path. -/
def fsSet (fs : Fs) (path : String) (content : String) : Fs :=
  (path, content) :: fs.filter (fun e => e.1 ≠ path)

/-- `Hunks::prepare_normal_ed`: resolve the destination from `options.file`
(loading it as the engine's source file) or else `options.output_file`, then
`File::create` it — which truncates the destination — before any hunk is
applied.  No backup is taken on this path. -/
def prepare_normal_ed (fs : Fs) (opts : PatchOptions) :
    Except PatchError (Fs × Option PatchFile × String) :=
  match opts.file with
  | some path =>
    match fs.lookup path with
    | some content =>
      let pf := PatchFile.load_file content
        (if opts.reverse then FileKind.Modified else FileKind.Original)
      Except.ok (fsSet fs path "", some pf, path)
    | Option.none => Except.error PatchError.IOError
  | Option.none =>
    match opts.output_file with
    | some path => Except.ok (fsSet fs path "", Option.none, path)
    | Option.none =>
      Except.error (PatchError.Error "Could not recognize destination/output file.")

/-- `Apply::apply` for an EditScript-format `Hunks` whose reverse option is
set: `prepare_to_apply` runs first (for this format it is
`prepare_normal_ed`, which opens and truncates the destination), and only
then does the dispatch reach the `(EditScript, true)` arm, which prints the
unsupported-combination message (`print_error`, modelled as the returned
message list) and returns `Ok(())`.  The boolean records that `apply`
returned `Ok`. -/
def applyEdReverse (fs : Fs) (opts : PatchOptions) : Fs × List String × Bool :=
  match prepare_normal_ed fs opts with
  | Except.error _ => (fs, [], false)
  | Except.ok (fs1, _file, _out) =>
    (fs1, ["ed format + reverse option is not possible!"], true)

deriving instance DecidableEq for Except

/-! Concrete inputs used by the claims below. -/

/-- the source file `"a\nb\nc\n"` of the spec's end-to-end example -/
def fileA : PatchFile := ⟨["a", "b", "c"], true, FileKind.Original⟩

/-- one Normal hunk encoding "delete line 2" (`2d1`) -/
def delete2Hunk : Hunk :=
  Hunk.normal
    ⟨⟨2, 2, PatchFormat.normal⟩, ⟨1, 1, PatchFormat.normal⟩,
      [PatchLine.NormalRange
          ⟨⟨2, 2, PatchFormat.normal⟩, ⟨1, 1, PatchFormat.normal⟩, NormalRangeKind.Delete⟩,
        PatchLine.NormalLineDelete "b"]⟩

/-- the file `"a\nc\n"` the spec's example expects as file B -/
def fileBclaim : PatchFile := ⟨["a", "c"], true, FileKind.Modified⟩

/-- the corresponding edit-script hunk `2d` for the same deletion -/
def edDelete2Hunk : Hunk :=
  Hunk.editScript
    ⟨⟨2, 2, PatchFormat.editScript⟩, EditScriptHunkKind.Delete,
      [PatchLine.EditScriptRange
          ⟨"2d", ⟨2, 2, PatchFormat.editScript⟩, EditScriptHunkKind.Delete⟩]⟩

/-- an Original-kind file lacking its trailing newline -/
def fileNoNl : PatchFile := ⟨["x"], false, FileKind.Original⟩

/-- an Original-kind file ending with a newline -/
def fileNl : PatchFile := ⟨["x"], true, FileKind.Original⟩

/-- an empty Unified-format `Hunks` collection -/
def unifiedEmptyHunks : Hunks := ⟨PatchFormat.unified, []⟩

/-- a Normal-format hunk offered to the Unified collection -/
def normalMismatchHunk : Hunk :=
  Hunk.normal ⟨⟨1, 1, PatchFormat.normal⟩, ⟨1, 1, PatchFormat.normal⟩, []⟩

/-- a one-file filesystem whose destination holds earlier content -/
def fsC5 : Fs := [("target.txt", "old content\n")]

/-- EditScript options with the reverse flag set and `target.txt` as the
positional file argument -/
def optsC5 : PatchOptions := ⟨true, false, some "target.txt", Option.none⟩

/-! Helper lemmas. -/

lemma range_new_none_iff (s e : Nat) (k : PatchFormat) :
    Range.new s e k = Option.none ↔ (e < s ∧ k ≠ PatchFormat.unified) := by
  unfold Range.new
  by_cases hk : k = PatchFormat.unified
  · simp [hk]
  · simp only [if_neg hk]
    split
    · simp only [reduceCtorEq, false_iff]
      intro h
      omega
    · simp only [true_iff]
      exact ⟨by omega, hk⟩

lemma stripPM_idem (l : List Char) : stripPM (stripPM l) = stripPM l := by
  induction l with
  | nil => rfl
  | cons c cs ih =>
    by_cases h : (c ≠ '+' && c ≠ '-') = true
    · simp only [stripPM, List.filter_cons, h, if_true] at ih ⊢
      exact congrArg (c :: ·) ih
    · simp only [stripPM, List.filter_cons, h, if_false] at ih ⊢
      exact ih

/-! Claim theorems. -/

/-- C9: `Range::new(start, end, format)` aborts (assertion failure) exactly
when `start > end` and the format is not Unified; in particular it never
aborts for Unified, whatever the ordering of `start` and `end`. -/
theorem c9_range_new_abort_iff (s e : Nat) (k : PatchFormat) :
    Range.new s e k = Option.none ↔ (s > e ∧ k ≠ PatchFormat.unified) :=
  range_new_none_iff s e k

/-- C3: in every apply algorithm the closing trailing-newline block — which
each algorithm instantiates at `FileKind.Original` except
`apply_context_reverse`, which instantiates it at `FileKind.Modified` —
writes a final newline exactly when the counter is `0`, or the counter is
`1` and the loaded file is of the relevant kind and was itself missing its
trailing newline; in every other case it writes nothing extra. -/
theorem c3_trailing_newline_resolution (cnt : Nat) (file : PatchFile) :
    (resolveTrailing FileKind.Original cnt file = "\n"
      ↔ (cnt = 0 ∨ (cnt = 1 ∧ file.kind = FileKind.Original ∧ file.ends_with_newline = false)))
  ∧ (resolveTrailing FileKind.Modified cnt file = "\n"
      ↔ (cnt = 0 ∨ (cnt = 1 ∧ file.kind = FileKind.Modified ∧ file.ends_with_newline = false)))
  ∧ (resolveTrailing FileKind.Original cnt file = "\n"
      ∨ resolveTrailing FileKind.Original cnt file = "")
  ∧ (resolveTrailing FileKind.Modified cnt file = "\n"
      ∨ resolveTrailing FileKind.Modified cnt file = "") := by
  have hne : ("" : String) ≠ "\n" := by decide
  match cnt with
  | 0 => simp [resolveTrailing]
  | 1 =>
    refine ⟨?_, ?_, ?_, ?_⟩ <;> simp only [resolveTrailing] <;> split <;>
      simp_all
  | (n + 2) => simp [resolveTrailing, hne]

/-- C4 counterexample: with a no-newline counter of exactly 1 and an
Original-kind source file whose `ends_with_newline` is false, the engine
*writes* its trailing newline instead of suppressing it. -/
theorem c4_suppression_counterexample :
    resolveTrailing FileKind.Original 1 fileNoNl = "\n" ∧ ("\n" : String) ≠ "" := by
  decide

/-- C4 (amended): when the counter is exactly 1 and the relevant source
file's kind matches with `ends_with_newline = false`, the engine writes its
own trailing newline; with `ends_with_newline = true` it writes nothing
extra; with counter 0 it always appends one. -/
theorem c4_trailing_newline_amended (file : PatchFile) :
    (file.kind = FileKind.Original → file.ends_with_newline = false →
      resolveTrailing FileKind.Original 1 file = "\n")
  ∧ (file.ends_with_newline = true → resolveTrailing FileKind.Original 1 file = "")
  ∧ resolveTrailing FileKind.Original 0 file = "\n" := by
  refine ⟨?_, ?_, rfl⟩
  · intro hk he
    simp [resolveTrailing, hk, he]
  · intro he
    simp [resolveTrailing, he]

/-- C4 witness: the amended statement evaluated at concrete files. -/
theorem c4_trailing_newline_amended_witness :
    resolveTrailing FileKind.Original 1 fileNoNl = "\n"
  ∧ resolveTrailing FileKind.Original 1 fileNl = ""
  ∧ resolveTrailing FileKind.Original 0 fileNl = "\n" :=
  ⟨(c4_trailing_newline_amended fileNoNl).1 rfl rfl,
    (c4_trailing_newline_amended fileNl).2.1 rfl,
    (c4_trailing_newline_amended fileNl).2.2⟩

/-- C8: a Normal-format hunk offered to a Unified-format `Hunks` is
*accepted* — the `matches!(self.kind, _hunk_kind)` assertion binds instead
of comparing, so the mismatched insertion is not rejected; only the
per-format data (here `UnifiedHunkData::add_patch_line`) performs a real
format check. -/
theorem c8_mismatched_insertion_accepted :
    unifiedEmptyHunks.add_hunk normalMismatchHunk
        = some ⟨PatchFormat.unified, [normalMismatchHunk]⟩
  ∧ normalMismatchHunk.kind ≠ unifiedEmptyHunks.kind
  ∧ UnifiedHunkData.add_patch_line
        ⟨⟨1, 0, PatchFormat.unified⟩, ⟨1, 0, PatchFormat.unified⟩, []⟩
        (PatchLine.NormalLineInsert "x")
      = Option.none := by
  decide

/-- C6: applying the edit-script hunk `2d` to the three-line file
`"a\nb\nc\n"` leaves the cursor at line 3 with line `"c"` unconsumed, yet
the tail-flush guard `file.lines().len() > old_file_line` fails and `"c"`
is never written — the output is `"a\n\n"`, which contains no `c`. -/
theorem c6_editscript_tail_drop :
    applyEditScript fileA [edDelete2Hunk] = some "a\n\n"
  ∧ fileA.lines.length = 3
  ∧ ("a\n\n" : String).data.contains 'c' = false := by
  decide

/-- C1: the forward-then-reverse round trip fails on the code already in the
Normal format: forward application of the delete-line-2 hunk to
`"a\nb\nc\n"` produces `"a\n\n"` (the tail of the source is never copied
and an extra newline is emitted), and reverse application to that output
produces `"a\nb\n\n"`, which differs from the original file byte-for-byte. -/
theorem c1_normal_roundtrip_fails :
    applyNormal fileA [delete2Hunk] = some "a\n\n"
  ∧ applyNormalReverse (PatchFile.load_file "a\n\n" FileKind.Modified) [delete2Hunk]
      = some "a\nb\n\n"
  ∧ ("a\nb\n\n" : String) ≠ "a\nb\nc\n" := by
  decide

/-- C2: evaluating the code on the spec's end-to-end example: the forward
Normal application of the delete-line-2 hunk to `"a\nb\nc\n"` yields
`"a\n\n"`, not the claimed `"a\nc\n"`, and the reverse application to
`"a\nc\n"` yields `"a\nb\n\n"`, not the claimed `"a\nb\nc\n"`. -/
theorem c2_normal_delete_example :
    applyNormal fileA [delete2Hunk] = some "a\n\n"
  ∧ ("a\n\n" : String) ≠ "a\nc\n"
  ∧ applyNormalReverse fileBclaim [delete2Hunk] = some "a\nb\n\n"
  ∧ ("a\nb\n\n" : String) ≠ "a\nb\nc\n" := by
  decide

/-- C5 counterexample: with EditScript hunks and the reverse option, the
destination file `target.txt` (initially `"old content\n"`) *is* opened and
truncated — after `apply` it reads `""` — even though the
unsupported-combination message is printed and `apply` returns `Ok`. -/
theorem c5_destination_truncated_counterexample :
    (applyEdReverse fsC5 optsC5).1.lookup "target.txt" = some ""
  ∧ fsC5.lookup "target.txt" = some "old content\n"
  ∧ (some "" : Option String) ≠ some "old content\n"
  ∧ (applyEdReverse fsC5 optsC5).2
      = (["ed format + reverse option is not possible!"], true) := by
  decide

/-- C5 (amended): for every EditScript-format `Hunks` with the reverse
option set whose destination resolves to a loadable file, `apply` prints
the unsupported-combination message as a user-facing error (not a crash),
returns `Ok`, and writes no hunk output — but only after preparation has
already opened and truncated the destination file. -/
theorem c5_ed_reverse_amended (fs : Fs) (opts : PatchOptions) (path content : String)
    (hf : opts.file = some path) (hc : fs.lookup path = some content) :
    applyEdReverse fs opts
      = (fsSet fs path "", ["ed format + reverse option is not possible!"], true) := by
  simp [applyEdReverse, prepare_normal_ed, hf, hc]

/-- C5 witness: the amended statement at the concrete filesystem. -/
theorem c5_ed_reverse_amended_witness :
    applyEdReverse fsC5 optsC5
      = (fsSet fsC5 "target.txt" "", ["ed format + reverse option is not possible!"], true) :=
  c5_ed_reverse_amended fsC5 optsC5 "target.txt" "old content\n" rfl (by decide)

/-- C7 counterexample: the decoders do panic or abort on some inputs — the
edit-script kind extractor panics on `"x"` (final character not `a`/`c`/`d`),
`try_from_edit_script` aborts on the descending pair `"5,2d"` and panics on
the empty line, and `try_from_context` aborts on a header carrying the
descending pair `5,2`. -/
theorem c7_decoder_panics_counterexample :
    Range.edit_script_range_kind "x" = Option.none
  ∧ Range.try_from_edit_script "5,2d" = Option.none
  ∧ Range.try_from_edit_script "" = Option.none
  ∧ Range.try_from_context "*** 5,2 ****" = Option.none := by
  decide

/-- C7 (amended): `try_from_unified` indeed always returns a decoded Range
or a typed error and never panics or aborts; `try_from_context` does so
except that it aborts exactly when the header's decoded two-number pair is
descending; `try_from_edit_script` and the kind extractor behave as claimed
on well-formed headers (e.g. `"4,6d"`) but can additionally panic or abort
(descending pair, empty line, bad trailing character). -/
theorem c7_decoders_amended :
    (∀ s : String, (Range.try_from_unified s).isSome = true)
  ∧ (∀ s : String, Range.try_from_context s = Option.none
      ↔ ∃ a b : Nat, contextNumbers s = some [a, b] ∧ b < a)
  ∧ Range.try_from_edit_script "4,6d"
      = some (Except.ok ⟨4, 6, PatchFormat.editScript⟩)
  ∧ Range.edit_script_range_kind "4,6d" = some EditScriptHunkKind.Delete := by
  refine ⟨?_, ?_, by decide, by decide⟩
  · intro s
    unfold Range.try_from_unified
    cases hm : (splitChar ',' (stripPM s.data)).mapM fromStrRadix10 with
    | none => simp [hm]
    | some ns =>
      match ns with
      | [] => simp [hm]
      | [n] => simp [hm, Range.new]
      | [n1, n2] => simp [hm, Range.new]
      | n1 :: n2 :: n3 :: t => simp [hm]
  · intro s
    unfold Range.try_from_context
    cases hc : contextNumbers s with
    | none => simp [hc]
    | some ns =>
      match ns with
      | [] => simp [hc]
      | [n] => simp [hc, Range.new]
      | [n1, n2] =>
        simp only [Option.map_eq_none', range_new_none_iff, Option.some.injEq]
        constructor
        · rintro ⟨hlt, -⟩
          exact ⟨n1, n2, rfl, hlt⟩
        · rintro ⟨a, b, hab, hlt⟩
          obtain ⟨rfl, rfl⟩ : n1 = a ∧ n2 = b := by
            simpa using hab
          refine ⟨hlt, by simp⟩
      | n1 :: n2 :: n3 :: t => simp [hc]

/-- C10: `Range::try_from_unified` is invariant under pre-stripping every
`+` and `-` from its input, and on an input whose stripped form is a single
decimal numeral `N` it returns `Ok` of a Range storing `end = 0`, whose
`Range::end()` therefore equals its start `N`. -/
theorem c10_unified_single_numeral (s : String) (N : Nat)
    (h : (splitChar ',' (stripPM s.data)).mapM fromStrRadix10 = some [N]) :
    Range.try_from_unified s = some (Except.ok ⟨N, 0, PatchFormat.unified⟩)
  ∧ Range.endV ⟨N, 0, PatchFormat.unified⟩ = some N
  ∧ (∀ t : String, Range.try_from_unified t
      = Range.try_from_unified (String.mk (stripPM t.data))) := by
  refine ⟨?_, by simp [Range.endV], ?_⟩
  · simp only [Range.try_from_unified]
    rw [h]
    simp [Range.new]
  · intro t
    unfold Range.try_from_unified
    simp [stripPM_idem]

/-- C10 witness: the statement at the concrete input `"+7"`. -/
theorem c10_unified_single_numeral_witness :
    ((splitChar ',' (stripPM ("+7" : String).data)).mapM fromStrRadix10 = some [7])
  ∧ Range.try_from_unified "+7" = some (Except.ok ⟨7, 0, PatchFormat.unified⟩) :=
  ⟨by decide, (c10_unified_single_numeral "+7" 7 (by decide)).1⟩
